import Mathlib

/-!
Shallow embedding of the CyTTY program (cytty.py): the UART message
formatter, the hex send / text send operations, the server-connection
receive loop and send operation, and the speech-recognition worker loop.

Strings are modelled as lists of Unicode scalar values (List Char), byte
sequences as lists of naturals below 256 (List Nat).  The Python built-ins
the program calls (str.encode with UTF-8, bytes.hex, bytes.fromhex,
str.strip, str.replace) are modelled faithfully to CPython semantics.
-/

namespace CyTTY

/-- ASCII whitespace as recognized by CPython's Py_ISSPACE, the character
class skipped by bytes.fromhex between digit pairs: space, tab, newline,
carriage return, vertical tab, form feed. -/
def isAsciiWS (c : Char) : Bool :=
  c = ' ' || c = '\t' || c = '\n' || c = '\r' || c = '\x0b' || c = '\x0c'

/-- Unicode whitespace as recognized by Python's str.isspace, the character
class removed from both ends by str.strip() with no arguments: tab through
carriage return, the C0 separators, space, next line, no-break space, ogham
space mark, the U+2000 block, line and paragraph separators, narrow no-break
space, medium mathematical space and ideographic space. -/
def isPyWS (c : Char) : Bool :=
  let n := c.toNat
  n = 32 || (9 ≤ n && n ≤ 13) || (28 ≤ n && n ≤ 31) || n = 0x85 || n = 0xA0 ||
  n = 0x1680 || (0x2000 ≤ n && n ≤ 0x200A) || n = 0x2028 || n = 0x2029 ||
  n = 0x202F || n = 0x205F || n = 0x3000

/-- Python str.strip() with no arguments: remove whitespace from both ends. -/
def pyStrip (l : List Char) : List Char :=
  ((l.dropWhile isPyWS).reverse.dropWhile isPyWS).reverse

/-- Python str.replace applied to remove space characters,
as in the source line hex_text.replace with a space and an empty string. -/
def removeSpaces (l : List Char) : List Char :=
  l.filter (fun c => c ≠ ' ')

/-- Value of a hexadecimal digit character, none for a non-digit
(CPython accepts 0-9, a-f, A-F). -/
def hexDigitVal (c : Char) : Option Nat :=
  if '0' ≤ c ∧ c ≤ '9' then some (c.toNat - 48)
  else if 'a' ≤ c ∧ c ≤ 'f' then some (c.toNat - 87)
  else if 'A' ≤ c ∧ c ≤ 'F' then some (c.toNat - 55)
  else none

/-- Lowercase hexadecimal digit character for a value below 16,
as produced by bytes.hex. -/
def hexDigitChar (n : Nat) : Char :=
  if n < 10 then Char.ofNat (48 + n) else Char.ofNat (87 + n)

/-- Python bytes.hex(): each byte becomes two lowercase hex digits,
no separators. -/
def bytesHex : List Nat → List Char
  | [] => []
  | b :: bs => hexDigitChar (b / 16) :: hexDigitChar (b % 16) :: bytesHex bs

/-- Python bytes.fromhex (CPython 3.7+): skip ASCII whitespace, then read
two adjacent hexadecimal digits per byte; any other shape raises ValueError,
modelled as none. -/
def fromhex : List Char → Option (List Nat)
  | [] => some []
  | c :: rest =>
    if isAsciiWS c then fromhex rest
    else
      match rest with
      | [] => none
      | c2 :: rest2 =>
        match hexDigitVal c, hexDigitVal c2 with
        | some hi, some lo => (fromhex rest2).map (fun bs => (hi * 16 + lo) :: bs)
        | _, _ => none

/-- UTF-8 encoding of one Unicode scalar value, as in Python
str.encode with the utf-8 codec. -/
def utf8EncodeChar (c : Char) : List Nat :=
  let n := c.toNat
  if n < 0x80 then [n]
  else if n < 0x800 then [0xC0 + n / 64, 0x80 + n % 64]
  else if n < 0x10000 then [0xE0 + n / 4096, 0x80 + (n / 64) % 64, 0x80 + n % 64]
  else [0xF0 + n / 262144, 0x80 + (n / 4096) % 64, 0x80 + (n / 64) % 64, 0x80 + n % 64]

/-- UTF-8 encoding of a string. -/
def utf8Encode : List Char → List Nat
  | [] => []
  | c :: s => utf8EncodeChar c ++ utf8Encode s

/-- First scalar value of a strict UTF-8 stream, as in Python bytes.decode
with the utf-8 codec: given the lead byte and the remaining bytes, the code
point it opens, or none for a stray continuation byte, an overlong encoding,
a surrogate, a code point above U+10FFFF or a truncated sequence (a byte
read past the end is the out-of-range marker 0x200, failing every
continuation-byte range check). -/
def utf8Step (b : Nat) (l : List Nat) : Option Nat :=
  let b1 := l.getD 0 0x200
  let b2 := l.getD 1 0x200
  let b3 := l.getD 2 0x200
  if b < 0x80 then some b
  else if b < 0xC2 then none
  else if b < 0xE0 then
    if 0x80 ≤ b1 ∧ b1 < 0xC0 then some ((b - 0xC0) * 64 + (b1 - 0x80)) else none
  else if b < 0xF0 then
    if (0x80 ≤ b1 ∧ b1 < 0xC0) ∧ (0x80 ≤ b2 ∧ b2 < 0xC0) ∧
        (b = 0xE0 → 0xA0 ≤ b1) ∧ (b = 0xED → b1 < 0xA0) then
      some ((b - 0xE0) * 4096 + (b1 - 0x80) * 64 + (b2 - 0x80))
    else none
  else if b < 0xF5 then
    if (0x80 ≤ b1 ∧ b1 < 0xC0) ∧ (0x80 ≤ b2 ∧ b2 < 0xC0) ∧ (0x80 ≤ b3 ∧ b3 < 0xC0) ∧
        (b = 0xF0 → 0x90 ≤ b1) ∧ (b = 0xF4 → b1 < 0x90) then
      some ((b - 0xF0) * 262144 + (b1 - 0x80) * 4096 + (b2 - 0x80) * 64 + (b3 - 0x80))
    else none
  else none

/-- Number of bytes of the UTF-8 sequence a valid lead byte opens. -/
def utf8Len (b : Nat) : Nat :=
  if b < 0x80 then 1 else if b < 0xE0 then 2 else if b < 0xF0 then 3 else 4

/-- Strict UTF-8 decoding of a whole byte sequence, as in Python
bytes.decode with the utf-8 codec: decode the sequence opened by the lead
byte, skip its continuation bytes, and continue; fail where utf8Step fails. -/
def utf8Decode (l : List Nat) : Option (List Char) :=
  match l with
  | [] => some []
  | b :: rest =>
    match utf8Step b rest with
    | some n => (utf8Decode (List.drop (utf8Len b - 1) rest)).map (fun s => Char.ofNat n :: s)
    | none => none
termination_by l.length
decreasing_by
  simp only [List.length_cons, List.length_drop]
  omega

/-- The UART format settings object (class UARTFormatSettings):
data bits, parity character, stop bits, baud rate, CR/LF terminator flags
and the hex-output flag. -/
structure UARTFormatSettings where
  data_bits : Nat
  parity : Char
  stop_bits : ℚ
  baud_rate : Nat
  add_cr : Bool
  add_lf : Bool
  hex_output : Bool
  deriving DecidableEq

/-- The settings constructed by UARTFormatSettings.__init__. -/
def defaultSettings : UARTFormatSettings :=
  ⟨8, 'N', 1, 9600, false, true, false⟩

/-- UARTFormatSettings.format_message: append the configured terminator,
encode as UTF-8, and when hex_output is set feed the hex string of the
bytes back through bytes.fromhex.  none models an uncaught exception. -/
def format_message (s : UARTFormatSettings) (message : List Char) : Option (List Nat) :=
  let message :=
    if s.add_cr && s.add_lf then message ++ ['\r', '\n']
    else if s.add_cr then message ++ ['\r']
    else if s.add_lf then message ++ ['\n']
    else message
  let bytes := utf8Encode message
  if s.hex_output then fromhex (bytesHex bytes)
  else some bytes

/-- Copy of a settings object with the hex_output flag replaced. -/
def setHexOutput (s : UARTFormatSettings) (b : Bool) : UARTFormatSettings :=
  ⟨s.data_bits, s.parity, s.stop_bits, s.baud_rate, s.add_cr, s.add_lf, b⟩

/-- The terminator the spec says each flag configuration selects:
CR+LF when both flags are set, CR alone, LF alone, or nothing. -/
def specTerminator (s : UARTFormatSettings) : List Char :=
  if s.add_cr && s.add_lf then ['\r', '\n']
  else if s.add_cr then ['\r']
  else if s.add_lf then ['\n']
  else []

/-- A line appended to the activity log, abstracted by which code path
produced it (the concrete f-string text carries no further state). -/
inductive LogEvent where
  | notConnected
  | sentText (text : List Char)
  | sendFailed
  | sendMessageError
  | sentHex (bytes : List Nat)
  | invalidHex
  deriving DecidableEq

/-- Observable outcome of one GUI send operation: the bytes written to the
socket (none when no write happened), the log lines appended, and whether
the input text field was cleared. -/
structure SendOutcome where
  sent : Option (List Nat)
  log : List LogEvent
  cleared : Bool
  deriving DecidableEq

/-- SpeechRecognitionGUI.send_hex: when connected, strip the input, skip it
when empty, remove spaces, parse with bytes.fromhex; on success send the
bytes, log them and clear the field; on ValueError log the invalid-hex
message and leave the field untouched. -/
def send_hex (connected : Bool) (input : List Char) : SendOutcome :=
  if !connected then ⟨none, [.notConnected], false⟩
  else
    let hex_text := pyStrip input
    if hex_text = [] then ⟨none, [], false⟩
    else
      match fromhex (removeSpaces hex_text) with
      | some byte_data => ⟨some byte_data, [.sentHex byte_data], true⟩
      | none => ⟨none, [.invalidHex], false⟩

/-- Observable outcome of ServerConnectionThread.send_message: the bytes
handed to sendall (none when no write was attempted), the returned boolean,
and whether a connection_error signal was emitted. -/
structure SendMessageOutcome where
  attempted : Option (List Nat)
  returned : Bool
  errorEmitted : Bool
  deriving DecidableEq

/-- ServerConnectionThread.send_message: when connected and a socket is
present, format the message and write it, returning true; any exception
(a failing sendall, modelled by writeOk = false) emits a connection_error
signal and returns false; otherwise return false without writing. -/
def send_message (connected : Bool) (sockPresent : Bool) (s : UARTFormatSettings)
    (message : List Char) (writeOk : Bool) : SendMessageOutcome :=
  if connected && sockPresent then
    match format_message s message with
    | some uart_formatted =>
      if writeOk then ⟨some uart_formatted, true, false⟩
      else ⟨some uart_formatted, false, true⟩
    | none => ⟨none, false, true⟩
  else ⟨none, false, false⟩

/-- SpeechRecognitionGUI.send_text: when the server thread is connected,
strip the input; a non-empty result is sent through send_message, logging
the sent text and clearing the field on success and a failure line
otherwise; an empty result does nothing. -/
def send_text (threadConnected : Bool) (sockPresent : Bool) (s : UARTFormatSettings)
    (input : List Char) (writeOk : Bool) : SendOutcome :=
  if !threadConnected then ⟨none, [.notConnected], false⟩
  else
    let text := pyStrip input
    if text = [] then ⟨none, [], false⟩
    else
      let r := send_message threadConnected sockPresent s text writeOk
      let errLog : List LogEvent := if r.errorEmitted then [.sendMessageError] else []
      if r.returned then ⟨r.attempted, errLog ++ [.sentText text], true⟩
      else ⟨r.attempted, errLog ++ [.sendFailed], false⟩

/-- One result of the blocking socket.recv call inside
ServerConnectionThread.run: a chunk of bytes, or an exception. -/
inductive RecvEvent where
  | chunk (bytes : List Nat)
  | errored
  deriving DecidableEq

/-- The message string ServerConnectionThread.run emits for one non-empty
chunk: its UTF-8 decoding, or on UnicodeDecodeError the hex fallback line. -/
def chunkToMessage (data : List Nat) : List Char :=
  match utf8Decode data with
  | some message => message
  | none => "Binary data: ".toList ++ bytesHex data

/-- The receive loop of ServerConnectionThread.run over a script of recv
results: emit each non-empty chunk as a server_message, skip empty chunks,
and break out of the loop on the first exception. -/
def recvLoop : List RecvEvent → List (List Char)
  | [] => []
  | .chunk bytes :: rest =>
    if bytes = [] then recvLoop rest else chunkToMessage bytes :: recvLoop rest
  | .errored :: _ => []

/-- A recv result that delivered data rather than raising. -/
def RecvEvent.isChunk : RecvEvent → Bool
  | .chunk _ => true
  | .errored => false

/-- Data of a chunk event. -/
def RecvEvent.bytes : RecvEvent → List Nat
  | .chunk bs => bs
  | .errored => []

/-- Modelled from the spec: the messages the connection worker should emit,
per the spec one message event for every non-empty chunk received before
the loop exits, decoded by chunkToMessage. -/
def specEmittedMessages (script : List RecvEvent) : List (List Char) :=
  ((script.takeWhile RecvEvent.isChunk).map RecvEvent.bytes).filterMap
    (fun bs => if bs = [] then none else some (chunkToMessage bs))

/-- Environment outcome of one un-paused iteration of the speech worker:
which of the nested exception paths in SpeechRecognitionThread.run is taken. -/
inductive SpeechEnv where
  | recognized (text : List Char)
  | unknownValue
  | requestError (e : List Char)
  | waitTimeout
  | micError (e : List Char)
  deriving DecidableEq

/-- Externally visible action of the speech worker. -/
inductive SpeechAction where
  | micOpen
  | recognizeAttempt
  | emitText (text : List Char)
  | socketSend (bytes : List Nat)
  | emitError
  deriving DecidableEq

/-- One iteration of the while-loop body of SpeechRecognitionThread.run:
when paused nothing happens; otherwise the microphone is opened and the
branch the environment selects runs (successful recognition emits the text
and sends the formatted bytes; UnknownValueError is ignored; RequestError
and microphone failures emit errors; a listen timeout does nothing more). -/
def speechIteration (s : UARTFormatSettings) (paused : Bool) (env : SpeechEnv) :
    List SpeechAction :=
  if paused then []
  else
    match env with
    | .recognized text =>
      match format_message s text with
      | some uart_formatted =>
        [.micOpen, .recognizeAttempt, .emitText text, .socketSend uart_formatted]
      | none => [.micOpen, .recognizeAttempt, .emitText text, .emitError]
    | .unknownValue => [.micOpen, .recognizeAttempt]
    | .requestError _ => [.micOpen, .recognizeAttempt, .emitError]
    | .waitTimeout => [.micOpen]
    | .micError _ => [.emitError]

/-- The speech worker's run loop over a script of per-iteration inputs
(the paused flag read at the top of the iteration, and the environment
outcome).  The loop keeps iterating until stop clears the running flag,
which ends the script; pausing never ends it. -/
def speechRun (s : UARTFormatSettings) : List (Bool × SpeechEnv) → List SpeechAction
  | [] => []
  | (paused, env) :: rest => speechIteration s paused env ++ speechRun s rest

/-- Filtering commutes with dropWhile when every element the filter removes
would also be dropped. -/
theorem filter_dropWhile (p q : Char → Bool) (hpq : ∀ c, p c = false → q c = true) :
    ∀ l : List Char, (l.dropWhile q).filter p = (l.filter p).dropWhile q
  | [] => rfl
  | c :: l => by
    by_cases hq : q c
    · rw [List.dropWhile_cons_of_pos hq]
      by_cases hp : p c
      · rw [List.filter_cons_of_pos hp, List.dropWhile_cons_of_pos hq,
          filter_dropWhile p q hpq l]
      · rw [List.filter_cons_of_neg (by simpa using hp), filter_dropWhile p q hpq l]
    · have hp : p c = true := by
        by_contra hcon
        exact hq (hpq c (by simpa using hcon))
      rw [List.dropWhile_cons_of_neg hq, List.filter_cons_of_pos hp,
        List.dropWhile_cons_of_neg hq]

/-- A character removed by removeSpaces is Python whitespace. -/
theorem space_imp_pyWS (c : Char) (h : (decide (c ≠ ' ')) = false) : isPyWS c = true := by
  have hc : c = ' ' := by simpa using h
  subst hc
  decide

/-- Removing spaces commutes with str.strip. -/
theorem removeSpaces_pyStrip (l : List Char) :
    removeSpaces (pyStrip l) = pyStrip (removeSpaces l) := by
  unfold removeSpaces pyStrip
  rw [List.filter_reverse, filter_dropWhile _ _ space_imp_pyWS,
    List.filter_reverse, filter_dropWhile _ _ space_imp_pyWS]

/-- A string of whitespace strips to nothing. -/
theorem pyStrip_eq_nil_of_all_ws (l : List Char) (h : ∀ c ∈ l, isPyWS c) :
    pyStrip l = [] := by
  unfold pyStrip
  rw [List.dropWhile_eq_nil_iff.mpr h]
  rfl

/-- A stripped string that loses everything to space removal was empty:
a non-empty result of str.strip never starts with whitespace. -/
theorem pyStrip_eq_nil_of_removeSpaces (l : List Char)
    (h : removeSpaces (pyStrip l) = []) : pyStrip l = [] := by
  cases hps : ((l.dropWhile isPyWS).reverse.dropWhile isPyWS) with
  | nil => unfold pyStrip; rw [hps]; rfl
  | cons a m =>
    exfalso
    have ha : isPyWS a = false := by
      have h2 := List.head?_dropWhile_not isPyWS (l.dropWhile isPyWS).reverse
      rw [hps] at h2
      simpa using h2
    have hmem : a ∈ pyStrip l := by
      unfold pyStrip
      rw [hps]
      simp
    have hsp : a = ' ' := by
      have h3 := List.filter_eq_nil_iff.mp h a hmem
      simpa using h3
    rw [hsp] at ha
    exact absurd ha (by decide)

/-- bytes.hex emits hexadecimal digit characters, and hexDigitVal reads
each of them back. -/
theorem hexDigitVal_hexDigitChar (n : Nat) (h : n < 16) :
    hexDigitVal (hexDigitChar n) = some n := by
  interval_cases n <;> decide

/-- Hexadecimal digit characters are not ASCII whitespace. -/
theorem isAsciiWS_hexDigitChar (n : Nat) (h : n < 16) :
    isAsciiWS (hexDigitChar n) = false := by
  interval_cases n <;> decide

/-- bytes.fromhex is a left inverse of bytes.hex on genuine byte values. -/
theorem fromhex_bytesHex : ∀ bs : List Nat, (∀ b ∈ bs, b < 256) →
    fromhex (bytesHex bs) = some bs
  | [], _ => rfl
  | b :: bs, h => by
    have hb : b < 256 := h b (by simp)
    have hhi : b / 16 < 16 := by omega
    have hlo : b % 16 < 16 := by omega
    show fromhex (hexDigitChar (b / 16) :: hexDigitChar (b % 16) :: bytesHex bs) = _
    rw [fromhex, if_neg (by rw [isAsciiWS_hexDigitChar _ hhi]; simp)]
    rw [hexDigitVal_hexDigitChar _ hhi, hexDigitVal_hexDigitChar _ hlo]
    rw [fromhex_bytesHex bs (fun x hx => h x (by simp [hx]))]
    have : b / 16 * 16 + b % 16 = b := by omega
    simp [this]

/-- Every Unicode scalar value is below 0x110000. -/
theorem char_toNat_lt (c : Char) : c.toNat < 0x110000 := by
  have h := c.valid
  have e : c.toNat = c.val.toNat := rfl
  rcases h with h | h <;> omega

/-- No Unicode scalar value is a surrogate. -/
theorem char_toNat_not_surrogate (c : Char) : c.toNat < 0xD800 ∨ 0xE000 ≤ c.toNat := by
  have h := c.valid
  have e : c.toNat = c.val.toNat := rfl
  rcases h with h | h
  · left; omega
  · right; omega

/-- UTF-8 encoding produces bytes. -/
theorem utf8EncodeChar_lt (c : Char) : ∀ x ∈ utf8EncodeChar c, x < 256 := by
  intro x hx
  have hlt := char_toNat_lt c
  simp only [utf8EncodeChar] at hx
  split at hx
  · simp at hx; omega
  · split at hx
    · simp at hx; rcases hx with hx | hx <;> omega
    · split at hx
      · simp at hx; rcases hx with hx | hx | hx <;> omega
      · simp at hx; rcases hx with hx | hx | hx | hx <;> omega

/-- UTF-8 encoding of a string produces bytes. -/
theorem utf8Encode_lt : ∀ l : List Char, ∀ x ∈ utf8Encode l, x < 256
  | [], _, hx => by simp [utf8Encode] at hx
  | c :: l, x, hx => by
    rw [utf8Encode, List.mem_append] at hx
    rcases hx with hx | hx
    · exact utf8EncodeChar_lt c x hx
    · exact utf8Encode_lt l x hx

/-- format_message always succeeds and returns the UTF-8 encoding of the
message with the terminator selected by the flags appended. -/
theorem format_message_eq (s : UARTFormatSettings) (message : List Char) :
    format_message s message = some (utf8Encode (message ++ specTerminator s)) := by
  unfold format_message specTerminator
  cases hcr : s.add_cr <;> cases hlf : s.add_lf <;>
    cases hx : s.hex_output <;>
      simp only [Bool.and_self, Bool.and_false, Bool.false_and, Bool.true_and,
        Bool.and_true, if_true, if_false, Bool.false_eq_true, ite_false, ite_true] <;>
    (try rw [List.append_nil]) <;>
    first
      | rfl
      | (exact fromhex_bytesHex _ (utf8Encode_lt _))

set_option maxRecDepth 8000 in
/-- Strict UTF-8 decoding inverts the encoding of one scalar value at the
head of a stream. -/
theorem utf8Decode_encodeChar (c : Char) (rest : List Nat) :
    utf8Decode (utf8EncodeChar c ++ rest) = (utf8Decode rest).map (fun s => c :: s) := by
  have hlt := char_toNat_lt c
  have hsur := char_toNat_not_surrogate c
  rcases Nat.lt_or_ge c.toNat 0x80 with h1 | h1
  · have he : utf8EncodeChar c = [c.toNat] := by
      simp only [utf8EncodeChar]
      rw [if_pos h1]
    rw [he]
    show utf8Decode (c.toNat :: rest) = _
    have hs : utf8Step c.toNat rest = some c.toNat := by
      simp only [utf8Step]
      rw [if_pos h1]
    have hd : utf8Len c.toNat - 1 = 0 := by
      unfold utf8Len
      rw [if_pos h1]
    rw [utf8Decode, hs, hd]
    show Option.map (fun s => Char.ofNat c.toNat :: s) (utf8Decode rest) = _
    rw [Char.ofNat_toNat]
  · rcases Nat.lt_or_ge c.toNat 0x800 with h2 | h2
    · have he : utf8EncodeChar c = [0xC0 + c.toNat / 64, 0x80 + c.toNat % 64] := by
        simp only [utf8EncodeChar]
        rw [if_neg (show ¬ c.toNat < 0x80 by omega), if_pos h2]
      rw [he]
      show utf8Decode ((0xC0 + c.toNat / 64) :: (0x80 + c.toNat % 64) :: rest) = _
      have hs : utf8Step (0xC0 + c.toNat / 64) ((0x80 + c.toNat % 64) :: rest) =
          some c.toNat := by
        simp only [utf8Step, List.getD_cons_zero, List.getD_cons_succ]
        rw [if_neg (show ¬ 0xC0 + c.toNat / 64 < 0x80 by omega),
          if_neg (show ¬ 0xC0 + c.toNat / 64 < 0xC2 by omega),
          if_pos (show 0xC0 + c.toNat / 64 < 0xE0 by omega),
          if_pos (show 0x80 ≤ 0x80 + c.toNat % 64 ∧ 0x80 + c.toNat % 64 < 0xC0 from
            ⟨by omega, by omega⟩)]
        congr 1
        omega
      have hd : utf8Len (0xC0 + c.toNat / 64) - 1 = 1 := by
        unfold utf8Len
        rw [if_neg (show ¬ 0xC0 + c.toNat / 64 < 0x80 by omega),
          if_pos (show 0xC0 + c.toNat / 64 < 0xE0 by omega)]
      rw [utf8Decode, hs, hd]
      show Option.map (fun s => Char.ofNat c.toNat :: s) (utf8Decode rest) = _
      rw [Char.ofNat_toNat]
    · rcases Nat.lt_or_ge c.toNat 0x10000 with h3 | h3
      · have he : utf8EncodeChar c =
            [0xE0 + c.toNat / 4096, 0x80 + c.toNat / 64 % 64, 0x80 + c.toNat % 64] := by
          simp only [utf8EncodeChar]
          rw [if_neg (show ¬ c.toNat < 0x80 by omega),
            if_neg (show ¬ c.toNat < 0x800 by omega), if_pos h3]
        rw [he]
        show utf8Decode ((0xE0 + c.toNat / 4096) :: (0x80 + c.toNat / 64 % 64) ::
          (0x80 + c.toNat % 64) :: rest) = _
        have hs : utf8Step (0xE0 + c.toNat / 4096)
            ((0x80 + c.toNat / 64 % 64) :: (0x80 + c.toNat % 64) :: rest) = some c.toNat := by
          simp only [utf8Step, List.getD_cons_zero, List.getD_cons_succ]
          rw [if_neg (show ¬ 0xE0 + c.toNat / 4096 < 0x80 by omega),
            if_neg (show ¬ 0xE0 + c.toNat / 4096 < 0xC2 by omega),
            if_neg (show ¬ 0xE0 + c.toNat / 4096 < 0xE0 by omega),
            if_pos (show 0xE0 + c.toNat / 4096 < 0xF0 by omega),
            if_pos (show
              (0x80 ≤ 0x80 + c.toNat / 64 % 64 ∧ 0x80 + c.toNat / 64 % 64 < 0xC0) ∧
              (0x80 ≤ 0x80 + c.toNat % 64 ∧ 0x80 + c.toNat % 64 < 0xC0) ∧
              (0xE0 + c.toNat / 4096 = 0xE0 → 0xA0 ≤ 0x80 + c.toNat / 64 % 64) ∧
              (0xE0 + c.toNat / 4096 = 0xED → 0x80 + c.toNat / 64 % 64 < 0xA0) from
              ⟨⟨by omega, by omega⟩, ⟨by omega, by omega⟩,
                fun hb => by omega, fun hb => by omega⟩)]
          congr 1
          omega
        have hd : utf8Len (0xE0 + c.toNat / 4096) - 1 = 2 := by
          unfold utf8Len
          rw [if_neg (show ¬ 0xE0 + c.toNat / 4096 < 0x80 by omega),
            if_neg (show ¬ 0xE0 + c.toNat / 4096 < 0xE0 by omega),
            if_pos (show 0xE0 + c.toNat / 4096 < 0xF0 by omega)]
        rw [utf8Decode, hs, hd]
        show Option.map (fun s => Char.ofNat c.toNat :: s) (utf8Decode rest) = _
        rw [Char.ofNat_toNat]
      · have he : utf8EncodeChar c =
            [0xF0 + c.toNat / 262144, 0x80 + c.toNat / 4096 % 64,
              0x80 + c.toNat / 64 % 64, 0x80 + c.toNat % 64] := by
          simp only [utf8EncodeChar]
          rw [if_neg (show ¬ c.toNat < 0x80 by omega),
            if_neg (show ¬ c.toNat < 0x800 by omega),
            if_neg (show ¬ c.toNat < 0x10000 by omega)]
        rw [he]
        show utf8Decode ((0xF0 + c.toNat / 262144) :: (0x80 + c.toNat / 4096 % 64) ::
          (0x80 + c.toNat / 64 % 64) :: (0x80 + c.toNat % 64) :: rest) = _
        have hs : utf8Step (0xF0 + c.toNat / 262144)
            ((0x80 + c.toNat / 4096 % 64) :: (0x80 + c.toNat / 64 % 64) ::
              (0x80 + c.toNat % 64) :: rest) = some c.toNat := by
          simp only [utf8Step, List.getD_cons_zero, List.getD_cons_succ]
          rw [if_neg (show ¬ 0xF0 + c.toNat / 262144 < 0x80 by omega),
            if_neg (show ¬ 0xF0 + c.toNat / 262144 < 0xC2 by omega),
            if_neg (show ¬ 0xF0 + c.toNat / 262144 < 0xE0 by omega),
            if_neg (show ¬ 0xF0 + c.toNat / 262144 < 0xF0 by omega),
            if_pos (show 0xF0 + c.toNat / 262144 < 0xF5 by omega),
            if_pos (show
              (0x80 ≤ 0x80 + c.toNat / 4096 % 64 ∧ 0x80 + c.toNat / 4096 % 64 < 0xC0) ∧
              (0x80 ≤ 0x80 + c.toNat / 64 % 64 ∧ 0x80 + c.toNat / 64 % 64 < 0xC0) ∧
              (0x80 ≤ 0x80 + c.toNat % 64 ∧ 0x80 + c.toNat % 64 < 0xC0) ∧
              (0xF0 + c.toNat / 262144 = 0xF0 → 0x90 ≤ 0x80 + c.toNat / 4096 % 64) ∧
              (0xF0 + c.toNat / 262144 = 0xF4 → 0x80 + c.toNat / 4096 % 64 < 0x90) from
              ⟨⟨by omega, by omega⟩, ⟨by omega, by omega⟩, ⟨by omega, by omega⟩,
                fun hb => by omega, fun hb => by omega⟩)]
          congr 1
          omega
        have hd : utf8Len (0xF0 + c.toNat / 262144) - 1 = 3 := by
          unfold utf8Len
          rw [if_neg (show ¬ 0xF0 + c.toNat / 262144 < 0x80 by omega),
            if_neg (show ¬ 0xF0 + c.toNat / 262144 < 0xE0 by omega),
            if_neg (show ¬ 0xF0 + c.toNat / 262144 < 0xF0 by omega)]
        rw [utf8Decode, hs, hd]
        show Option.map (fun s => Char.ofNat c.toNat :: s) (utf8Decode rest) = _
        rw [Char.ofNat_toNat]

/-- Strict UTF-8 decoding inverts UTF-8 encoding. -/
theorem utf8Decode_utf8Encode : ∀ s : List Char, utf8Decode (utf8Encode s) = some s
  | [] => by rw [utf8Encode, utf8Decode]
  | c :: s => by
    rw [utf8Encode, utf8Decode_encodeChar, utf8Decode_utf8Encode s]
    rfl

/-- The receive loop emits exactly the messages the spec describes: one per
non-empty chunk delivered before the first socket error. -/
theorem recvLoop_eq_spec : ∀ script : List RecvEvent, recvLoop script = specEmittedMessages script
  | [] => rfl
  | .chunk bs :: rest => by
    rw [recvLoop]
    by_cases hb : bs = []
    · rw [if_pos hb, recvLoop_eq_spec rest]
      simp [specEmittedMessages, RecvEvent.isChunk, RecvEvent.bytes, hb]
    · rw [if_neg hb, recvLoop_eq_spec rest]
      simp [specEmittedMessages, RecvEvent.isChunk, RecvEvent.bytes, hb]
  | .errored :: rest => by
    rw [recvLoop]
    simp [specEmittedMessages, RecvEvent.isChunk]

/-- Claim C1: for every input string and every configuration of the
terminator flags, format_message returns the UTF-8 encoding of the input
with exactly the selected terminator appended: CR+LF when both flags are
set, CR alone when only add_cr, LF alone when only add_lf, and nothing
when neither. -/
theorem claim1_terminator_policy (s : UARTFormatSettings) (message : List Char) :
    format_message s message = some (utf8Encode (message ++ specTerminator s)) :=
  format_message_eq s message

/-- Claim C2: the hex-passthrough transform is a no-op round trip: decoding
the hex string of a byte sequence yields the byte sequence back, and
format_message with hex_output enabled equals format_message with
hex_output disabled, all other settings equal. -/
theorem claim2_hex_passthrough_noop (bs : List Nat) (hb : ∀ b ∈ bs, b < 256)
    (s : UARTFormatSettings) (message : List Char) :
    fromhex (bytesHex bs) = some bs ∧
    format_message (setHexOutput s true) message =
      format_message (setHexOutput s false) message := by
  refine ⟨fromhex_bytesHex bs hb, ?_⟩
  rw [format_message_eq, format_message_eq]
  rfl

/-- Witness for claim C2 at the bytes DE AD and the default settings. -/
theorem claim2_witness :
    fromhex (bytesHex [222, 173]) = some [222, 173] ∧
    format_message (setHexOutput defaultSettings true) ['h', 'i'] =
      format_message (setHexOutput defaultSettings false) ['h', 'i'] :=
  claim2_hex_passthrough_noop [222, 173] (by decide) defaultSettings ['h', 'i']

/-- Claim C3: parity, stop bits, baud rate and data bits do not influence
the formatted byte output: configurations agreeing on add_cr, add_lf and
hex_output produce identical format_message results. -/
theorem claim3_framing_fields_noninterference (s1 s2 : UARTFormatSettings)
    (message : List Char) (hcr : s1.add_cr = s2.add_cr) (hlf : s1.add_lf = s2.add_lf)
    (hhex : s1.hex_output = s2.hex_output) :
    format_message s1 message = format_message s2 message := by
  simp only [format_message, hcr, hlf, hhex]

/-- Witness for claim C3: two configurations differing in data bits,
parity, stop bits and baud rate format identically. -/
theorem claim3_witness :
    format_message ⟨8, 'N', 1, 9600, false, true, false⟩ ['h', 'i'] =
      format_message ⟨5, 'E', 1.5, 115200, false, true, false⟩ ['h', 'i'] :=
  claim3_framing_fields_noninterference
    ⟨8, 'N', 1, 9600, false, true, false⟩ ⟨5, 'E', 1.5, 115200, false, true, false⟩
    ['h', 'i'] rfl rfl rfl

/-- Claim C4: the hex-send operation strips all space characters before
decoding, so any two hex inputs equal up to inserted or removed spaces
produce the identical outcome, in particular the identical byte sequence
written to the socket. -/
theorem claim4_hex_send_space_insensitive (s t : List Char)
    (h : removeSpaces s = removeSpaces t) (connected : Bool) :
    send_hex connected s = send_hex connected t := by
  cases connected with
  | false => rfl
  | true =>
    have hkey : removeSpaces (pyStrip s) = removeSpaces (pyStrip t) := by
      rw [removeSpaces_pyStrip, removeSpaces_pyStrip, h]
    have hempty : (pyStrip s = []) ↔ (pyStrip t = []) := by
      constructor
      · intro hx
        apply pyStrip_eq_nil_of_removeSpaces
        rw [← hkey, hx]
        rfl
      · intro hx
        apply pyStrip_eq_nil_of_removeSpaces
        rw [hkey, hx]
        rfl
    simp only [send_hex, Bool.not_true, Bool.false_eq_true, if_false]
    by_cases hs : pyStrip s = []
    · rw [if_pos hs, if_pos (hempty.mp hs)]
    · rw [if_neg hs, if_neg (fun hx => hs (hempty.mpr hx)), hkey]

/-- Witness for claim C4 at the spec's example pair. -/
theorem claim4_witness :
    send_hex true ("AB CD EF".toList) = send_hex true ("ABCDEF".toList) :=
  claim4_hex_send_space_insensitive ("AB CD EF".toList) ("ABCDEF".toList) (by decide) true

/-- Claim C5 is false as stated: the input AB-tab-CD contains a
non-hexadecimal character after space removal, yet bytes.fromhex skips the
ASCII tab (CPython 3.7+), so the bytes AB CD are written to the socket and
the field is cleared instead of the input being rejected. -/
theorem claim5_counterexample :
    hexDigitVal '\t' = none ∧
    '\t' ∈ removeSpaces (pyStrip ['A', 'B', '\t', 'C', 'D']) ∧
    ¬ (send_hex true ['A', 'B', '\t', 'C', 'D']).sent = none ∧
    send_hex true ['A', 'B', '\t', 'C', 'D'] =
      ⟨some [171, 205], [.sentHex [171, 205]], true⟩ := by
  decide

/-- Claim C5 as amended: for every non-empty stripped hex input, when
bytes.fromhex rejects the space-stripped string (a character that is
neither a hex digit nor ASCII whitespace, a digit pair split by whitespace,
or an odd digit count), no bytes are written, the invalid-hex error is
logged and the field keeps its contents; when bytes.fromhex accepts it,
the parsed bytes are sent, logged, and the field is cleared. -/
theorem claim5_fromhex_validity (input : List Char) (hne : pyStrip input ≠ []) :
    (fromhex (removeSpaces (pyStrip input)) = none →
      send_hex true input = ⟨none, [.invalidHex], false⟩) ∧
    (∀ bs, fromhex (removeSpaces (pyStrip input)) = some bs →
      send_hex true input = ⟨some bs, [.sentHex bs], true⟩) := by
  constructor
  · intro hnone
    simp only [send_hex, Bool.not_true, Bool.false_eq_true, if_false]
    rw [if_neg hne, hnone]
  · intro bs hsome
    simp only [send_hex, Bool.not_true, Bool.false_eq_true, if_false]
    rw [if_neg hne, hsome]

/-- Witness for amended claim C5: an odd-length input is rejected with the
field kept, a valid input is sent and cleared. -/
theorem claim5_witness :
    send_hex true ['A', 'B', 'C'] = ⟨none, [.invalidHex], false⟩ ∧
    send_hex true ['A', 'B'] = ⟨some [171], [.sentHex [171]], true⟩ :=
  ⟨(claim5_fromhex_validity ['A', 'B', 'C'] (by decide)).1 (by decide),
    (claim5_fromhex_validity ['A', 'B'] (by decide)).2 [171] (by decide)⟩

/-- Claim C6: the connection worker emits every non-empty chunk received
before the first socket error as one message event; a chunk that is valid
UTF-8 is emitted decoded, and a chunk on which UTF-8 decoding fails is
emitted as the hex fallback line, with no error path. -/
theorem claim6_receive_decode_fallback (script : List RecvEvent) (message : List Char)
    (data : List Nat) (hfail : utf8Decode data = none) :
    recvLoop script = specEmittedMessages script ∧
    chunkToMessage (utf8Encode message) = message ∧
    chunkToMessage data = "Binary data: ".toList ++ bytesHex data := by
  refine ⟨recvLoop_eq_spec script, ?_, ?_⟩
  · simp only [chunkToMessage, utf8Decode_utf8Encode message]
  · simp only [chunkToMessage, hfail]

/-- Witness for claim C6 at a concrete receive script and the undecodable
chunk FF. -/
theorem claim6_witness :
    recvLoop [.chunk [104, 105], .chunk [], .chunk [255], .errored, .chunk [104]] =
      specEmittedMessages [.chunk [104, 105], .chunk [], .chunk [255], .errored, .chunk [104]] ∧
    chunkToMessage (utf8Encode ['h', 'i']) = ['h', 'i'] ∧
    chunkToMessage [255] = "Binary data: ".toList ++ bytesHex [255] :=
  claim6_receive_decode_fallback _ ['h', 'i'] [255] (by simp [utf8Decode, utf8Step])

/-- Claim C7: send_message returns false without attempting any write when
the connection is not open; when connected it formats and writes the
message, returning true on success, and on a write failure it reports the
error and returns false. -/
theorem claim7_send_message_status (connected sockPresent : Bool)
    (s : UARTFormatSettings) (message : List Char) (writeOk : Bool) :
    (connected = false ∨ sockPresent = false →
      send_message connected sockPresent s message writeOk = ⟨none, false, false⟩) ∧
    (connected = true → sockPresent = true →
      ∃ bs, format_message s message = some bs ∧
        (writeOk = true →
          send_message connected sockPresent s message writeOk = ⟨some bs, true, false⟩) ∧
        (writeOk = false →
          send_message connected sockPresent s message writeOk = ⟨some bs, false, true⟩)) := by
  constructor
  · intro h
    rcases h with h | h <;> subst h <;> simp [send_message]
  · intro hc hs'
    subst hc; subst hs'
    refine ⟨_, format_message_eq s message, ?_, ?_⟩ <;> intro hw <;> subst hw <;>
      simp [send_message, format_message_eq]

/-- Witness for claim C7: disconnected, successful and failing sends. -/
theorem claim7_witness :
    send_message false true defaultSettings ['h', 'i'] true = ⟨none, false, false⟩ ∧
    send_message true true defaultSettings ['h', 'i'] true =
      ⟨some [104, 105, 10], true, false⟩ ∧
    send_message true true defaultSettings ['h', 'i'] false =
      ⟨some [104, 105, 10], false, true⟩ := by
  refine ⟨(claim7_send_message_status false true defaultSettings ['h', 'i'] true).1
    (Or.inl rfl), ?_, ?_⟩
  · obtain ⟨bs, h1, h2, h3⟩ :=
      (claim7_send_message_status true true defaultSettings ['h', 'i'] true).2 rfl rfl
    have h4 : format_message defaultSettings ['h', 'i'] = some [104, 105, 10] := by decide
    rw [h1] at h4
    rw [Option.some.inj h4] at h2
    exact h2 rfl
  · obtain ⟨bs, h1, h2, h3⟩ :=
      (claim7_send_message_status true true defaultSettings ['h', 'i'] false).2 rfl rfl
    have h4 : format_message defaultSettings ['h', 'i'] = some [104, 105, 10] := by decide
    rw [h1] at h4
    rw [Option.some.inj h4] at h3
    exact h3 rfl

/-- Claim C8: format_message is total: every input and configuration
produces a byte sequence, and in particular the internal hex re-encode
(bytes.fromhex of the hex string of the encoded bytes) never fails. -/
theorem claim8_format_message_total (s : UARTFormatSettings) (message : List Char) :
    (∃ bs, format_message s message = some bs) ∧
    fromhex (bytesHex (utf8Encode (message ++ specTerminator s))) =
      some (utf8Encode (message ++ specTerminator s)) :=
  ⟨⟨_, format_message_eq s message⟩, fromhex_bytesHex _ (utf8Encode_lt _)⟩

/-- Claim C9: an iteration of the speech worker taken in the paused state
performs no action at all (no microphone open, no recognition attempt, no
socket send); the run loop processes every scripted iteration, so pausing
never terminates the worker; and an un-paused iteration with a successful
recognition opens the microphone, attempts recognition, emits the text and
sends the formatted bytes. -/
theorem claim9_pause_blocks_recognition (s : UARTFormatSettings)
    (script : List (Bool × SpeechEnv)) :
    speechRun s script = (script.map (fun pe => speechIteration s pe.1 pe.2)).flatten ∧
    (∀ env, speechIteration s true env = []) ∧
    (∀ text, ∃ bs, format_message s text = some bs ∧
      speechIteration s false (.recognized text) =
        [.micOpen, .recognizeAttempt, .emitText text, .socketSend bs]) := by
  refine ⟨?_, ?_, ?_⟩
  · induction script with
    | nil => rfl
    | cons pe rest ih =>
      obtain ⟨p, env⟩ := pe
      rw [speechRun, List.map_cons, List.flatten_cons, ih]
  · intro env
    simp [speechIteration]
  · intro text
    refine ⟨_, format_message_eq s text, ?_⟩
    simp [speechIteration, format_message_eq]

/-- Claim C10: with the connection open, the manual text send strips
leading and trailing whitespace before formatting and sending, and a
whitespace-only input produces no send, no log line, and leaves the input
field unchanged. -/
theorem claim10_send_text_strip_empty (s : UARTFormatSettings) (input : List Char)
    (writeOk : Bool) :
    ((∀ c ∈ input, isPyWS c) → send_text true true s input writeOk = ⟨none, [], false⟩) ∧
    (pyStrip input ≠ [] → ∃ bs, format_message s (pyStrip input) = some bs ∧
      (send_text true true s input writeOk).sent = some bs) := by
  constructor
  · intro hws
    have h0 := pyStrip_eq_nil_of_all_ws input hws
    simp only [send_text, Bool.not_true, Bool.false_eq_true, if_false]
    rw [if_pos h0]
  · intro hne
    refine ⟨_, format_message_eq s (pyStrip input), ?_⟩
    simp only [send_text, Bool.not_true, Bool.false_eq_true, if_false]
    rw [if_neg hne]
    simp only [send_message, Bool.and_self, if_true, format_message_eq]
    cases writeOk <;> simp

/-- Witness for claim C10: a whitespace-only input does nothing, a padded
input is stripped, formatted and sent. -/
theorem claim10_witness :
    send_text true true defaultSettings [' ', '\t'] true = ⟨none, [], false⟩ ∧
    (send_text true true defaultSettings (' ' :: 'h' :: 'i' :: [' ']) true).sent =
      some [104, 105, 10] := by
  constructor
  · exact (claim10_send_text_strip_empty defaultSettings [' ', '\t'] true).1 (by decide)
  · obtain ⟨bs, h1, h2⟩ :=
      (claim10_send_text_strip_empty defaultSettings (' ' :: 'h' :: 'i' :: [' ']) true).2
        (by decide)
    have h4 : format_message defaultSettings (pyStrip (' ' :: 'h' :: 'i' :: [' '])) =
        some [104, 105, 10] := by decide
    rw [h1] at h4
    rw [h2, Option.some.inj h4]

end CyTTY
